import Mathlib

/-!
Verification of the economic-update and inequality-metric logic of
`src/simulation.py` (the "Universal Capital Simulation" dashboards).

The file embeds, over ℚ (Python floats and ints are modelled as exact
rationals), the agent update formulas of `PersonAgent`, `BusinessAgent`
and `LandlordAgent`, the aggregate reporters of `HarlemModel`
(`total_universals`, `total_rent_collected`, `gini_income`,
`gini_wealth`, `avg_business_growth`), the Gini coefficient
`HarlemModel.gini`, and the trailing `TownModel` variant.

Randomly sampled quantities (`random.uniform`, `random.randint`) become
explicit parameters.  A Python computation that raises
(`ZeroDivisionError`) is modelled as returning `none`.
-/

namespace Simulation

/-- Helper: `wsumFrom k l` is `sum((i + 1) * x[i])` over `l` where the first
element of `l` carries index `k`; `wsumFrom 0` is the weighted sum
appearing in `HarlemModel.gini` (src/simulation.py line 116). -/
def wsumFrom (k : ℕ) : List ℚ → ℚ
  | [] => 0
  | a :: t => ((k : ℚ) + 1) * a + wsumFrom (k + 1) t

/-- The weighted sum `sum((i + 1) * x[i] for i in range(n))` of
`HarlemModel.gini`, indices starting at 0. -/
def wsum (l : List ℚ) : ℚ := wsumFrom 0 l

/-- Embedding of `HarlemModel.gini` (src/simulation.py lines 110–117):

    if len(x) == 0: return 0
    x = sorted(x)
    n = len(x)
    gini_index = (2 * sum((i + 1) * x[i] for i in range(n)) / (n * sum(x))) - (n + 1) / n

Python raises `ZeroDivisionError` when the denominator `n * sum(x)` is
zero (the all-zero case), modelled here as `none`.  The intermediate
`cumulative = np.cumsum(x)` of the source is dead code and omitted. -/
def gini (x : List ℚ) : Option ℚ :=
  if x.length = 0 then some 0
  else if (x.length : ℚ) * (List.insertionSort (· ≤ ·) x).sum = 0 then none
  else some (2 * wsum (List.insertionSort (· ≤ ·) x)
      / ((x.length : ℚ) * (List.insertionSort (· ≤ ·) x).sum)
    - ((x.length : ℚ) + 1) / (x.length : ℚ))

lemma wsumFrom_nil (k : ℕ) : wsumFrom k [] = 0 := rfl

lemma wsumFrom_cons (k : ℕ) (a : ℚ) (t : List ℚ) :
    wsumFrom k (a :: t) = ((k : ℚ) + 1) * a + wsumFrom (k + 1) t := rfl

lemma wsumFrom_append_singleton (b : ℚ) :
    ∀ (t : List ℚ) (k : ℕ),
      wsumFrom k (t ++ [b]) = wsumFrom k t + (((k + t.length : ℕ) : ℚ) + 1) * b := by
  intro t
  induction t with
  | nil => intro k; simp [wsumFrom_nil, wsumFrom_cons]
  | cons a t ih =>
      intro k
      rw [List.cons_append]
      simp only [wsumFrom_cons, List.length_cons]
      rw [ih (k + 1)]
      push_cast
      ring

lemma wsumFrom_le (l : List ℚ) :
    ∀ k : ℕ, (∀ a ∈ l, 0 ≤ a) → wsumFrom k l ≤ (((k + l.length : ℕ) : ℚ)) * l.sum := by
  induction l with
  | nil => intro k _; simp [wsumFrom]
  | cons a t ih =>
      intro k h
      have ha : 0 ≤ a := h a (List.mem_cons_self a t)
      have ht : ∀ b ∈ t, 0 ≤ b := fun b hb => h b (List.mem_cons_of_mem a hb)
      have hts : 0 ≤ t.sum := List.sum_nonneg ht
      have h1 : wsumFrom (k + 1) t ≤ (((k + 1 + t.length : ℕ) : ℚ)) * t.sum := ih (k + 1) ht
      simp only [wsumFrom, List.sum_cons, List.length_cons]
      have hk : ((k : ℚ) + 1) * a ≤ (((k + (t.length + 1) : ℕ) : ℚ)) * a := by
        apply mul_le_mul_of_nonneg_right _ ha
        push_cast
        linarith [Nat.cast_nonneg (α := ℚ) t.length]
      have hk2 : (((k + 1 + t.length : ℕ) : ℚ)) * t.sum
          ≤ (((k + (t.length + 1) : ℕ) : ℚ)) * t.sum := by
        apply mul_le_mul_of_nonneg_right _ hts
        push_cast
        linarith
      calc ((k : ℚ) + 1) * a + wsumFrom (k + 1) t
          ≤ (((k + (t.length + 1) : ℕ) : ℚ)) * a
            + (((k + (t.length + 1) : ℕ) : ℚ)) * t.sum := by
            exact add_le_add hk (le_trans h1 hk2)
        _ = (((k + (t.length + 1) : ℕ) : ℚ)) * (a + t.sum) := by ring

/-- Upper bound `wsum l ≤ l.length * l.sum` for lists of non-negative entries. -/
lemma wsum_le (l : List ℚ) (h : ∀ a ∈ l, 0 ≤ a) :
    wsum l ≤ ((l.length : ℚ)) * l.sum := by
  have := wsumFrom_le l 0 h
  simpa [wsum] using this

/-- Chebyshev-type lower bound for the weighted sum of a list sorted in
ascending order: `(n + 1) * sum ≤ 2 * wsum`. -/
lemma le_two_wsum (l : List ℚ) (h : l.Sorted (· ≤ ·)) :
    ((l.length : ℚ) + 1) * l.sum ≤ 2 * wsum l := by
  induction l using List.reverseRecOn with
  | nil => simp [wsum, wsumFrom]
  | append_singleton t b ih =>
      have hsplit := List.pairwise_append.mp h
      have ht : t.Sorted (· ≤ ·) := hsplit.1
      have hb : ∀ a ∈ t, a ≤ b := by
        intro a ha
        exact hsplit.2.2 a ha b (List.mem_singleton_self b)
      have hsum : t.sum ≤ ((t.length : ℚ)) * b := by
        have := List.sum_le_card_nsmul t b hb
        simpa [nsmul_eq_mul] using this
      have hW : wsum (t ++ [b]) = wsum t + ((t.length : ℚ) + 1) * b := by
        have := wsumFrom_append_singleton b t 0
        simpa [wsum] using this
      have iht := ih ht
      simp only [hW, List.sum_append, List.length_append, List.sum_cons,
        List.sum_nil, List.length_cons, List.length_nil]
      push_cast
      nlinarith [iht, hsum]

/-- C2: for every sequence `x` of non-negative rationals, any value the
Gini computation returns (it returns one unless `x` is non-empty with
zero total, where the code raises) lies in the interval `[0, 1)`. -/
theorem gini_mem_Ico (x : List ℚ) (g : ℚ)
    (hx : ∀ a ∈ x, 0 ≤ a) (hg : gini x = some g) : 0 ≤ g ∧ g < 1 := by
  unfold gini at hg
  by_cases h0 : x.length = 0
  · rw [if_pos h0] at hg
    have hgeq : g = 0 := (Option.some.inj hg).symm
    rw [hgeq]
    norm_num
  · rw [if_neg h0] at hg
    set s := List.insertionSort (· ≤ ·) x with hs
    have hperm : s.Perm x := List.perm_insertionSort (· ≤ ·) x
    have hlen : s.length = x.length := hperm.length_eq
    have hsum : s.sum = x.sum := hperm.sum_eq
    have hmem : ∀ a ∈ s, 0 ≤ a := fun a ha => hx a (hperm.mem_iff.mp ha)
    have hsorted : s.Sorted (· ≤ ·) := List.sorted_insertionSort (· ≤ ·) x
    by_cases hz : (x.length : ℚ) * s.sum = 0
    · rw [if_pos hz] at hg
      exact absurd hg (by simp)
    · rw [if_neg hz] at hg
      have hgeq : g = 2 * wsum s / ((x.length : ℚ) * s.sum)
          - ((x.length : ℚ) + 1) / (x.length : ℚ) := (Option.some.inj hg).symm
      have hn : (0 : ℚ) < (x.length : ℚ) := by
        have : 0 < x.length := Nat.pos_of_ne_zero h0
        exact_mod_cast this
      have hS0 : 0 ≤ s.sum := List.sum_nonneg hmem
      have hSne : s.sum ≠ 0 := by
        intro hc
        exact hz (by rw [hc, mul_zero])
      have hS : 0 < s.sum := lt_of_le_of_ne hS0 (Ne.symm hSne)
      have hden : (0 : ℚ) < (x.length : ℚ) * s.sum := mul_pos hn hS
      have hup : wsum s ≤ (x.length : ℚ) * s.sum := by
        have := wsum_le s hmem
        rwa [hlen] at this
      have hlow : ((x.length : ℚ) + 1) * s.sum ≤ 2 * wsum s := by
        have := le_two_wsum s hsorted
        rwa [hlen] at this
      subst hgeq
      constructor
      · rw [sub_nonneg, div_le_div_iff₀ hn hden]
        nlinarith [mul_le_mul_of_nonneg_right hlow hn.le]
      · rw [sub_lt_iff_lt_add]
        rw [div_lt_iff₀ hden]
        have hrfl : (1 + ((x.length : ℚ) + 1) / (x.length : ℚ))
            * ((x.length : ℚ) * s.sum)
            = 2 * ((x.length : ℚ) * s.sum) + s.sum := by
          field_simp
          ring
        rw [hrfl]
        nlinarith [hup, hS]

/-- Witness for C2 at the concrete input `[0, 1, 2]`, whose Gini value
is `4/9`. -/
theorem gini_mem_Ico_witness : (0 : ℚ) ≤ 4 / 9 ∧ (4 : ℚ) / 9 < 1 := by
  apply gini_mem_Ico [0, 1, 2] (4 / 9)
  · intro a ha
    simp only [List.mem_cons, List.not_mem_nil, or_false] at ha
    rcases ha with h | h | h <;> rw [h] <;> norm_num
  · simp only [gini, wsum, wsumFrom, List.insertionSort, List.orderedInsert]
    norm_num

/-- C1: on the all-zero non-empty input `[0, 0]` the Gini
computation of the source hits a zero denominator `n * sum(x)` and raises
`ZeroDivisionError` (modelled as `none`); it is not special-cased to
return 0 — only the empty list is. -/
theorem gini_all_zero_raises : gini (List.replicate 2 (0 : ℚ)) = none := by
  simp only [List.replicate, gini, List.insertionSort, List.orderedInsert]
  norm_num

lemma sorted_replicate (k : ℕ) (v : ℚ) :
    (List.replicate k v).Sorted (· ≤ ·) := by
  induction k with
  | zero => simp
  | succ k ih =>
      rw [List.replicate_succ, List.sorted_cons]
      refine ⟨?_, ih⟩
      intro b hb
      rw [List.eq_of_mem_replicate hb]

lemma sum_replicate_rat (k : ℕ) (v : ℚ) :
    (List.replicate k v).sum = (k : ℚ) * v := by
  rw [List.sum_replicate, nsmul_eq_mul]

lemma wsumFrom_replicate (v : ℚ) :
    ∀ (m k : ℕ), wsumFrom k (List.replicate m v)
      = v * ((m : ℚ) * k + (m : ℚ) * ((m : ℚ) + 1) / 2) := by
  intro m
  induction m with
  | zero => intro k; simp [wsumFrom_nil]
  | succ m ih =>
      intro k
      rw [List.replicate_succ, wsumFrom_cons, ih (k + 1)]
      push_cast
      ring

/-- C7 (amended): the Gini of a constant list `[v] * k` is 0 whenever
`v ≠ 0` (for `v = 0` and `k ≥ 1` the computation divides by zero), and
the Gini of the empty list is 0. -/
theorem gini_replicate (v : ℚ) (k : ℕ) (hv : v ≠ 0) :
    gini (List.replicate k v) = some 0 := by
  cases k with
  | zero => simp [gini]
  | succ k =>
      have hlen : (List.replicate (k + 1) v).length = k + 1 := List.length_replicate _ _
      have hsorted := sorted_replicate (k + 1) v
      have hsort_eq : List.insertionSort (· ≤ ·) (List.replicate (k + 1) v)
          = List.replicate (k + 1) v := hsorted.insertionSort_eq
      have hk1 : ((k : ℚ) + 1) ≠ 0 := by positivity
      have hsum : (List.replicate (k + 1) v).sum = ((k : ℚ) + 1) * v := by
        rw [sum_replicate_rat]; push_cast; ring
      have hden : ((((k + 1 : ℕ)) : ℚ)) * (List.replicate (k + 1) v).sum ≠ 0 := by
        rw [hsum]
        push_cast
        exact mul_ne_zero hk1 (mul_ne_zero hk1 hv)
      unfold gini
      rw [if_neg (by rw [hlen]; omega), hsort_eq, hlen]
      rw [if_neg hden]
      congr 1
      rw [hsum, wsum, wsumFrom_replicate]
      push_cast
      field_simp
      ring

/-- Witness for C7: three identical residents with wealth 4000 each have
Gini 0. -/
theorem gini_replicate_witness : gini (List.replicate 3 (4000 : ℚ)) = some 0 :=
  gini_replicate 4000 3 (by norm_num)

/-- C7 counterexample as stated: for the constant value `v = 0` repeated
once, the Gini computation does not return 0 — it divides by zero
(modelled as `none`). -/
theorem gini_replicate_zero_raises : gini (List.replicate 1 (0 : ℚ)) = none := by
  simp only [List.replicate, gini, List.insertionSort, List.orderedInsert]
  norm_num

lemma sorted_ones_append (m : ℕ) (N : ℚ) (hN : 1 ≤ N) :
    (List.replicate m (1 : ℚ) ++ [N]).Sorted (· ≤ ·) := by
  induction m with
  | zero => simp
  | succ m ih =>
      rw [List.replicate_succ, List.cons_append, List.sorted_cons]
      refine ⟨?_, ih⟩
      intro b hb
      rcases List.mem_append.mp hb with h | h
      · rw [List.eq_of_mem_replicate h]
      · rw [List.mem_singleton.mp h]; exact hN

/-- Closed form of the Gini of the source on `[1] * m ++ [N]` for `N ≥ 1`. -/
lemma gini_ones (m : ℕ) (N : ℚ) (hN : 1 ≤ N) :
    gini (List.replicate m (1 : ℚ) ++ [N])
      = some (((m : ℚ) + 2 * N) / ((m : ℚ) + N) - ((m : ℚ) + 2) / ((m : ℚ) + 1)) := by
  have hm0 : (0 : ℚ) ≤ (m : ℚ) := Nat.cast_nonneg m
  have hmN : (0 : ℚ) < (m : ℚ) + N := by linarith
  have hm1 : (0 : ℚ) < (m : ℚ) + 1 := by linarith
  have hlen : (List.replicate m (1 : ℚ) ++ [N]).length = m + 1 := by
    simp
  have hsort_eq : List.insertionSort (· ≤ ·) (List.replicate m (1 : ℚ) ++ [N])
      = List.replicate m (1 : ℚ) ++ [N] := (sorted_ones_append m N hN).insertionSort_eq
  have hsum : (List.replicate m (1 : ℚ) ++ [N]).sum = (m : ℚ) + N := by
    rw [List.sum_append, sum_replicate_rat]
    simp
  have hW : wsum (List.replicate m (1 : ℚ) ++ [N])
      = (m : ℚ) * ((m : ℚ) + 1) / 2 + ((m : ℚ) + 1) * N := by
    rw [wsum, wsumFrom_append_singleton, wsumFrom_replicate]
    push_cast [List.length_replicate]
    ring
  have hden : (((m + 1 : ℕ)) : ℚ) * ((m : ℚ) + N) ≠ 0 := by
    push_cast
    positivity
  unfold gini
  rw [if_neg (by rw [hlen]; omega), hsort_eq, hsum, hlen]
  rw [if_neg hden]
  congr 1
  rw [hW]
  push_cast
  rw [div_sub_div _ _ (by positivity) (by positivity),
    div_sub_div _ _ (ne_of_gt hmN) (ne_of_gt hm1), div_eq_div_iff (by positivity) (by positivity)]
  ring

/-- C6 (amended): for a fixed population size `m + 1` and `1 ≤ N ≤ M`,
the Gini of `[1] * m ++ [N]` is defined and monotonically non-decreasing
in `N`. -/
theorem gini_ones_mono (m : ℕ) (N M : ℚ) (hN : 1 ≤ N) (hNM : N ≤ M) :
    ∃ gN gM, gini (List.replicate m (1 : ℚ) ++ [N]) = some gN
      ∧ gini (List.replicate m (1 : ℚ) ++ [M]) = some gM ∧ gN ≤ gM := by
  have hM : (1 : ℚ) ≤ M := le_trans hN hNM
  refine ⟨_, _, gini_ones m N hN, gini_ones m M hM, ?_⟩
  have hm0 : (0 : ℚ) ≤ (m : ℚ) := Nat.cast_nonneg m
  have hmN : (0 : ℚ) < (m : ℚ) + N := by linarith
  have hmM : (0 : ℚ) < (m : ℚ) + M := by linarith
  have key : ((m : ℚ) + 2 * N) / ((m : ℚ) + N) ≤ ((m : ℚ) + 2 * M) / ((m : ℚ) + M) := by
    rw [div_le_div_iff₀ hmN hmM]
    nlinarith [mul_nonneg hm0 (sub_nonneg.mpr hNM)]
  linarith

/-- Witness for C6 at `m = 1`, `N = 1`, `M = 2`. -/
theorem gini_ones_mono_witness :
    ∃ gN gM, gini (List.replicate 1 (1 : ℚ) ++ [1]) = some gN
      ∧ gini (List.replicate 1 (1 : ℚ) ++ [2]) = some gM ∧ gN ≤ gM :=
  gini_ones_mono 1 1 2 (by norm_num) (by norm_num)

/-- C6 counterexample as stated: with population size 2, moving the last
value `N` from 0 up to 1 strictly decreases the Gini (`1/2` down to `0`),
so `gini([1, N])` is not monotonically increasing in `N` over all `N`. -/
theorem gini_ones_not_monotone :
    gini (List.replicate 1 (1 : ℚ) ++ [0]) = some (1 / 2)
      ∧ gini (List.replicate 1 (1 : ℚ) ++ [1]) = some 0
      ∧ ((0 : ℚ) ≤ 1 ∧ ¬((1 : ℚ) / 2 ≤ 0)) := by
  refine ⟨?_, ?_, by norm_num⟩
  · simp only [List.replicate, gini, wsum, wsumFrom, List.insertionSort,
      List.orderedInsert]
    norm_num
  · simp only [List.replicate, gini, wsum, wsumFrom, List.insertionSort,
      List.orderedInsert]
    norm_num

/-- A resident (src/simulation.py lines 13–29).  `spending` and
`universal_spending` do not exist on the Python object until the first
`step`; they are initialized to 0 here and nothing reads them before
`step` sets them. -/
structure PersonAgent where
  income : ℚ
  rent : ℚ
  capital_investment : ℚ
  universals : ℚ
  spending_rate : ℚ
  universal_spending_propensity : ℚ
  spending : ℚ
  universal_spending : ℚ

/-- Embedding of `PersonAgent.__init__`: `capital_investment = income * random.uniform(0.0, 0.1)`
with the sampled factor passed as `ciFrac`; `universals = 0`;
`spending_rate` and `universal_spending_propensity` are the sampled
values. -/
def PersonAgent.init (income rent ciFrac sRate prop : ℚ) : PersonAgent :=
  { income := income, rent := rent, capital_investment := income * ciFrac,
    universals := 0, spending_rate := sRate,
    universal_spending_propensity := prop, spending := 0, universal_spending := 0 }

/-- Source line 24: `target_ci = self.income * 0.25`. -/
def PersonAgent.target_ci (a : PersonAgent) : ℚ := a.income * 0.25

/-- Source line 25: `gap = max(0, target_ci - self.capital_investment)`. -/
def PersonAgent.gap (a : PersonAgent) : ℚ :=
  max 0 (a.target_ci - a.capital_investment)

/-- The value of `self.universals` right after line 26
(`self.universals += gap * 0.5`), before the spending decrement of
line 29 is applied. -/
def PersonAgent.universals_credited (a : PersonAgent) : ℚ :=
  a.universals + a.gap * 0.5

/-- Embedding of `PersonAgent.step` (lines 23–29): credit the capital gap, compute the
spending split, then decrement the credit by the universal spending,
clamped at 0. -/
def PersonAgent.step (a : PersonAgent) : PersonAgent :=
  { a with
    universals := max 0 (a.universals_credited
      - a.income * a.spending_rate * a.universal_spending_propensity * 0.2),
    spending := a.income * a.spending_rate,
    universal_spending := a.income * a.spending_rate * a.universal_spending_propensity * 0.2 }

/-- A business (lines 31–41): `annual_revenue` is the sampled revenue,
`capitalization = annual_revenue * random.uniform(0.05, 0.15)` with the
sampled factor passed as `capFrac`. -/
structure BusinessAgent where
  annual_revenue : ℚ
  capitalization : ℚ
  accepts_universals : Bool
  universals_received : ℚ

def BusinessAgent.init (revenue capFrac : ℚ) : BusinessAgent :=
  { annual_revenue := revenue, capitalization := revenue * capFrac,
    accepts_universals := true, universals_received := 0 }

/-- Embedding of `BusinessAgent.step`: `universals_received += random.randint(100, 1000)`
with the sampled increment passed as `universal_income`. -/
def BusinessAgent.step (b : BusinessAgent) (universal_income : ℚ) : BusinessAgent :=
  { b with universals_received := b.universals_received + universal_income }

/-- A landlord (lines 43–51).  `local_reinvestment` does not exist on the
Python object until the first `step`; initialized to 0 here. -/
structure LandlordAgent where
  monthly_rent_collected : ℚ
  reinvestment_rate : ℚ
  local_reinvestment : ℚ

def LandlordAgent.init (rate : ℚ) : LandlordAgent :=
  { monthly_rent_collected := 0, reinvestment_rate := rate, local_reinvestment := 0 }

/-- Embedding of `LandlordAgent.step`: `monthly_rent_collected = random.randint(10000, 30000)`
(the sampled value passed as `rent_sample`), then
`local_reinvestment = monthly_rent_collected * reinvestment_rate`. -/
def LandlordAgent.step (l : LandlordAgent) (rent_sample : ℚ) : LandlordAgent :=
  { l with monthly_rent_collected := rent_sample,
           local_reinvestment := rent_sample * l.reinvestment_rate }

/-- Modelled from the spec: the landlord field `net_gain` of the data model
of the spec (§3, `net_gain = total_rent − reinvestment`) is absent from
src/simulation.py, which only computes `local_reinvestment`; per the
glossary of the spec (net gain is the collected rent the landlord retains
rather than reinvests) it is the collected rent minus the
reinvestment. -/
def LandlordAgent.net_gain (l : LandlordAgent) : ℚ :=
  l.monthly_rent_collected - l.local_reinvestment

/-- C3: after a landlord collects rent, `net_gain` is exactly the
collected rent minus the reinvestment, and the reinvestment is between
`0.05` and `0.3` times the collected rent whenever the sampled
reinvestment rate is in `[0.05, 0.3]` (its `random.uniform` range). -/
theorem landlord_net_gain (rate rent : ℚ)
    (h1 : (0.05 : ℚ) ≤ rate) (h2 : rate ≤ (0.3 : ℚ)) (h3 : 0 ≤ rent) :
    ((LandlordAgent.init rate).step rent).net_gain
        = rent - ((LandlordAgent.init rate).step rent).local_reinvestment
      ∧ (0.05 : ℚ) * rent ≤ ((LandlordAgent.init rate).step rent).local_reinvestment
      ∧ ((LandlordAgent.init rate).step rent).local_reinvestment ≤ (0.3 : ℚ) * rent := by
  refine ⟨rfl, ?_, ?_⟩
  · show (0.05 : ℚ) * rent ≤ rent * rate
    nlinarith
  · show rent * rate ≤ (0.3 : ℚ) * rent
    nlinarith

/-- Witness for C3 at the scenario of the spec: `total_rent = 20000`,
`reinvestment_rate = 0.1` gives `reinvestment = 2000` and
`net_gain = 18000`. -/
theorem landlord_net_gain_witness :
    ((LandlordAgent.init 0.1).step 20000).local_reinvestment = 2000
      ∧ ((LandlordAgent.init 0.1).step 20000).net_gain = 18000
      ∧ (((LandlordAgent.init 0.1).step 20000).net_gain
          = 20000 - ((LandlordAgent.init 0.1).step 20000).local_reinvestment
        ∧ (0.05 : ℚ) * 20000 ≤ ((LandlordAgent.init 0.1).step 20000).local_reinvestment
        ∧ ((LandlordAgent.init 0.1).step 20000).local_reinvestment ≤ (0.3 : ℚ) * 20000) := by
  refine ⟨?_, ?_, landlord_net_gain 0.1 20000 (by norm_num) (by norm_num) (by norm_num)⟩
  · show (20000 : ℚ) * 0.1 = 2000
    norm_num
  · show (20000 : ℚ) - 20000 * 0.1 = 18000
    norm_num

/-- C4: for a resident with `income = 40000` and `capital = 2000`, the
per-resident update computes `target_capital = 10000`, `gap = 8000`, and
the credit added before the spending decrement is `gap * 0.5 = 4000`. -/
theorem person_scenario (a : PersonAgent)
    (h1 : a.income = 40000) (h2 : a.capital_investment = 2000) :
    a.target_ci = 10000 ∧ a.gap = 8000
      ∧ a.universals_credited = a.universals + 4000 := by
  have ht : a.target_ci = 10000 := by
    rw [PersonAgent.target_ci, h1]; norm_num
  have hgap : a.gap = 8000 := by
    rw [PersonAgent.gap, ht, h2]
    norm_num
  refine ⟨ht, hgap, ?_⟩
  rw [PersonAgent.universals_credited, hgap]
  norm_num

/-- Witness for C4 at a concrete resident: income 40000, sampled capital
factor `1/20` (so capital 2000). -/
theorem person_scenario_witness :
    (PersonAgent.init 40000 1000 (1/20) (1/2) (1/2)).target_ci = 10000
      ∧ (PersonAgent.init 40000 1000 (1/20) (1/2) (1/2)).gap = 8000
      ∧ (PersonAgent.init 40000 1000 (1/20) (1/2) (1/2)).universals_credited
          = (PersonAgent.init 40000 1000 (1/20) (1/2) (1/2)).universals + 4000 :=
  person_scenario _ (by norm_num [PersonAgent.init]) (by norm_num [PersonAgent.init])

/-- C5: the redistribution credit starts at 0 and stays non-negative
after any number of `step` updates, since the decrement is clamped at 0
(`self.universals = max(0, self.universals - self.universal_spending)`). -/
theorem universals_nonneg (income rent ciFrac sRate prop : ℚ) :
    (PersonAgent.init income rent ciFrac sRate prop).universals = 0
      ∧ ∀ k : ℕ,
        0 ≤ (PersonAgent.step^[k] (PersonAgent.init income rent ciFrac sRate prop)).universals := by
  refine ⟨rfl, ?_⟩
  intro k
  cases k with
  | zero => exact le_refl 0
  | succ k =>
      rw [Function.iterate_succ_apply']
      exact le_max_left 0 _

/-- An entry of the agent list of the scheduler (`self.schedule.agents`): one
of the three agent classes. -/
inductive ScheduleAgent where
  | person (p : PersonAgent)
  | business (b : BusinessAgent)
  | landlord (l : LandlordAgent)

namespace ScheduleAgent

/-- Access `getattr` on attribute `universals`, guarded by `hasattr`:
only `PersonAgent` defines `universals`. -/
def universalsAttr : ScheduleAgent → Option ℚ
  | .person p => some p.universals
  | _ => none

/-- Access guarded by `hasattr` on attribute `rent`: only `PersonAgent` defines `rent`; the
landlord field is named `monthly_rent_collected`, not `rent`. -/
def rentAttr : ScheduleAgent → Option ℚ
  | .person p => some p.rent
  | _ => none

/-- Access guarded by `hasattr` on attribute `income`: only `PersonAgent` defines `income`. -/
def incomeAttr : ScheduleAgent → Option ℚ
  | .person p => some p.income
  | _ => none

/-- The wealth term of `gini_wealth`:
a sum of `getattr` on `capital_investment` and on `universals` (default 0) for
agents having attribute `capital_investment` — only `PersonAgent`. -/
def wealthAttr : ScheduleAgent → Option ℚ
  | .person p => some (p.capital_investment + p.universals)
  | _ => none

/-- Access guarded by `hasattr` on attribute `universals_received`: only `BusinessAgent`. -/
def universalsReceivedAttr : ScheduleAgent → Option ℚ
  | .business b => some b.universals_received
  | _ => none

end ScheduleAgent

/-- The model state (`HarlemModel.__init__`, lines 56–72): the residents,
businesses and landlords added to the `RandomActivation` schedule. -/
structure HarlemModel where
  people : List PersonAgent
  businesses : List BusinessAgent
  landlords : List LandlordAgent

namespace HarlemModel

/-- Embedding of `self.schedule.agents`: residents first, then businesses, then
landlords, in insertion order. -/
def agents (m : HarlemModel) : List ScheduleAgent :=
  m.people.map ScheduleAgent.person ++ m.businesses.map ScheduleAgent.business
    ++ m.landlords.map ScheduleAgent.landlord

/-- Embedding of `total_universals` (lines 92–93). -/
def total_universals (m : HarlemModel) : ℚ :=
  (m.agents.filterMap ScheduleAgent.universalsAttr).sum

/-- Embedding of `total_rent_collected` (lines 95–96): sums the `rent` attribute over
the agents that have one. -/
def total_rent_collected (m : HarlemModel) : ℚ :=
  (m.agents.filterMap ScheduleAgent.rentAttr).sum

/-- Embedding of `gini_income` (lines 98–100). -/
def gini_income (m : HarlemModel) : Option ℚ :=
  gini (m.agents.filterMap ScheduleAgent.incomeAttr)

/-- Embedding of `gini_wealth` (lines 102–104). -/
def gini_wealth (m : HarlemModel) : Option ℚ :=
  gini (m.agents.filterMap ScheduleAgent.wealthAttr)

/-- Embedding of `avg_business_growth` (lines 106–108): `np.mean(growth)` if `growth`
is non-empty, else 0. -/
def avg_business_growth (m : HarlemModel) : ℚ :=
  if (m.agents.filterMap ScheduleAgent.universalsReceivedAttr) = [] then 0
  else (m.agents.filterMap ScheduleAgent.universalsReceivedAttr).sum
    / ((m.agents.filterMap ScheduleAgent.universalsReceivedAttr).length : ℚ)

/-- Modelled from the spec: the "total income" aggregate of the
`residents=0` scenario (§8); src/simulation.py has no total-income
reporter, so it is the sum of the same per-agent income list that
`gini_income` collects. -/
def total_income (m : HarlemModel) : ℚ :=
  (m.agents.filterMap ScheduleAgent.incomeAttr).sum

/-- Modelled from the spec: the "total wealth" aggregate of the
`residents=0` scenario (§8); src/simulation.py has no total-wealth
reporter, so it is the sum of the same per-agent wealth list that
`gini_wealth` collects. -/
def total_wealth (m : HarlemModel) : ℚ :=
  (m.agents.filterMap ScheduleAgent.wealthAttr).sum

end HarlemModel

lemma filterMap_map_none {α β : Type} (g : α → ScheduleAgent)
    (f : ScheduleAgent → Option β) (h : ∀ a, f (g a) = none) :
    ∀ l : List α, (l.map g).filterMap f = []
  | [] => rfl
  | a :: t => by
      rw [List.map_cons, List.filterMap_cons, h a]
      exact filterMap_map_none g f h t

lemma filterMap_map_some {β : Type} (f : ScheduleAgent → Option β)
    (v : PersonAgent → β) (h : ∀ p, f (ScheduleAgent.person p) = some (v p)) :
    ∀ l : List PersonAgent, (l.map ScheduleAgent.person).filterMap f = l.map v
  | [] => rfl
  | a :: t => by
      rw [List.map_cons, List.filterMap_cons, h a, List.map_cons]
      rw [filterMap_map_some f v h t]

lemma agents_filterMap_people (m : HarlemModel) {β : Type}
    (f : ScheduleAgent → Option β) (v : PersonAgent → β)
    (hp : ∀ p, f (ScheduleAgent.person p) = some (v p))
    (hb : ∀ b, f (ScheduleAgent.business b) = none)
    (hl : ∀ l, f (ScheduleAgent.landlord l) = none) :
    m.agents.filterMap f = m.people.map v := by
  rw [HarlemModel.agents, List.append_assoc, List.filterMap_append,
    List.filterMap_append, filterMap_map_some f v hp,
    filterMap_map_none ScheduleAgent.business f hb,
    filterMap_map_none ScheduleAgent.landlord f hl, List.append_nil,
    List.append_nil]

/-- C8: with zero residents (and any businesses and landlords), the
aggregate totals — total universals, total income, total wealth — are
all 0, and both Gini reporters return 0 rather than raising. -/
theorem totals_zero_residents (m : HarlemModel) (h : m.people = []) :
    m.total_universals = 0 ∧ m.total_income = 0 ∧ m.total_wealth = 0
      ∧ m.gini_income = some 0 ∧ m.gini_wealth = some 0 := by
  have hu := agents_filterMap_people m ScheduleAgent.universalsAttr
    PersonAgent.universals (fun _ => rfl) (fun _ => rfl) (fun _ => rfl)
  have hi := agents_filterMap_people m ScheduleAgent.incomeAttr
    PersonAgent.income (fun _ => rfl) (fun _ => rfl) (fun _ => rfl)
  have hw := agents_filterMap_people m ScheduleAgent.wealthAttr
    (fun p => p.capital_investment + p.universals)
    (fun _ => rfl) (fun _ => rfl) (fun _ => rfl)
  rw [h] at hu hi hw
  simp only [List.map_nil] at hu hi hw
  refine ⟨?_, ?_, ?_, ?_, ?_⟩
  · rw [HarlemModel.total_universals, hu]; rfl
  · rw [HarlemModel.total_income, hi]; rfl
  · rw [HarlemModel.total_wealth, hw]; rfl
  · rw [HarlemModel.gini_income, hi]; rfl
  · rw [HarlemModel.gini_wealth, hw]; rfl

/-- Witness for C8: a model with no residents, one business and one
landlord. -/
theorem totals_zero_residents_witness :
    (HarlemModel.mk [] [BusinessAgent.init 200000 (1/10)] [LandlordAgent.init (1/10)]).total_universals = 0
      ∧ (HarlemModel.mk [] [BusinessAgent.init 200000 (1/10)] [LandlordAgent.init (1/10)]).total_income = 0
      ∧ (HarlemModel.mk [] [BusinessAgent.init 200000 (1/10)] [LandlordAgent.init (1/10)]).total_wealth = 0
      ∧ (HarlemModel.mk [] [BusinessAgent.init 200000 (1/10)] [LandlordAgent.init (1/10)]).gini_income = some 0
      ∧ (HarlemModel.mk [] [BusinessAgent.init 200000 (1/10)] [LandlordAgent.init (1/10)]).gini_wealth = some 0 :=
  totals_zero_residents _ rfl

/-- C9: `Total_Rent` is the sum of the fixed per-resident `rent`
attributes only; whatever the landlord list is (so in particular
whatever `monthly_rent_collected` each landlord holds), it never
contributes, since landlords carry no `rent` attribute. -/
theorem total_rent_residents_only (m : HarlemModel) :
    m.total_rent_collected = (m.people.map PersonAgent.rent).sum
      ∧ ∀ ls : List LandlordAgent,
        (HarlemModel.mk m.people m.businesses ls).total_rent_collected
          = m.total_rent_collected := by
  have hr : ∀ mm : HarlemModel,
      mm.total_rent_collected = (mm.people.map PersonAgent.rent).sum := by
    intro mm
    rw [HarlemModel.total_rent_collected,
      agents_filterMap_people mm ScheduleAgent.rentAttr PersonAgent.rent
        (fun _ => rfl) (fun _ => rfl) (fun _ => rfl)]
  refine ⟨hr m, ?_⟩
  intro ls
  rw [hr m, hr (HarlemModel.mk m.people m.businesses ls)]

end Simulation

namespace Town

/-- The `PersonAgent` of the trailing `TownModel` variant
(src/simulation.py lines 326–336): only `income`, `capital_investment`
and `universals`. -/
structure PersonAgent where
  income : ℚ
  capital_investment : ℚ
  universals : ℚ

/-- Embedding of `PersonAgent.__init__` of the Town variant: income and capital are
passed in, `universals = 0`. -/
def PersonAgent.init (income capital : ℚ) : PersonAgent :=
  { income := income, capital_investment := capital, universals := 0 }

/-- Embedding of `PersonAgent.step` of the Town variant (lines 333–336):
`universals += max(0, income * 0.25 - capital_investment) * 0.5`,
with no spending decrement and no change to `income` or
`capital_investment`. -/
def PersonAgent.step (a : PersonAgent) : PersonAgent :=
  { a with universals :=
      a.universals + max 0 (a.income * 0.25 - a.capital_investment) * 0.5 }

/-- The `TownModel` state (lines 339–360): the scheduled residents. -/
structure TownModel where
  people : List PersonAgent

/-- Embedding of `TownModel.total_universals` (lines 355–356). -/
def TownModel.total_universals (m : TownModel) : ℚ :=
  (m.people.map PersonAgent.universals).sum

/-- Embedding of `TownModel.step` (lines 358–360): every resident steps once per model
step (the random activation order is irrelevant, the updates are
independent). -/
def TownModel.step (m : TownModel) : TownModel :=
  { people := m.people.map PersonAgent.step }

lemma step_income (a : PersonAgent) (k : ℕ) :
    (PersonAgent.step^[k] a).income = a.income := by
  induction k with
  | zero => rfl
  | succ k ih => rw [Function.iterate_succ_apply', PersonAgent.step]; exact ih

lemma step_capital (a : PersonAgent) (k : ℕ) :
    (PersonAgent.step^[k] a).capital_investment = a.capital_investment := by
  induction k with
  | zero => rfl
  | succ k ih => rw [Function.iterate_succ_apply', PersonAgent.step]; exact ih

lemma step_universals_formula (income capital : ℚ) (k : ℕ) :
    (PersonAgent.step^[k] (PersonAgent.init income capital)).universals
      = (k : ℚ) * (0.5 * max 0 (0.25 * income - capital)) := by
  induction k with
  | zero => simp [PersonAgent.init]
  | succ k ih =>
      rw [Function.iterate_succ_apply', PersonAgent.step]
      show (PersonAgent.step^[k] (PersonAgent.init income capital)).universals
          + max 0 ((PersonAgent.step^[k] (PersonAgent.init income capital)).income * 0.25
              - (PersonAgent.step^[k] (PersonAgent.init income capital)).capital_investment) * 0.5
        = ((k : ℕ) + 1 : ℕ) * (0.5 * max 0 (0.25 * income - capital))
      rw [ih, step_income, step_capital, PersonAgent.init]
      show (k : ℚ) * (0.5 * max 0 (0.25 * income - capital))
          + max 0 (income * 0.25 - capital) * 0.5
        = ((k : ℕ) + 1 : ℕ) * (0.5 * max 0 (0.25 * income - capital))
      rw [mul_comm income (0.25 : ℚ)]
      push_cast
      ring

/-- C10: in the Town variant, a resident step adds
`max(0, 0.25 * income - capital) * 0.5` to `universals`, leaves `income`
and `capital_investment` unchanged, so after `k` steps the universals
equal exactly `k * 0.5 * max(0, 0.25 * income - capital)`, monotone
non-decreasing in the step count. -/
theorem town_universals_linear (income capital : ℚ) (k : ℕ) :
    (PersonAgent.step^[k] (PersonAgent.init income capital)).income = income
      ∧ (PersonAgent.step^[k] (PersonAgent.init income capital)).capital_investment
          = capital
      ∧ (PersonAgent.step^[k] (PersonAgent.init income capital)).universals
          = (k : ℚ) * (0.5 * max 0 (0.25 * income - capital))
      ∧ ∀ j : ℕ, j ≤ k →
        (PersonAgent.step^[j] (PersonAgent.init income capital)).universals
          ≤ (PersonAgent.step^[k] (PersonAgent.init income capital)).universals := by
  refine ⟨step_income _ k, step_capital _ k, step_universals_formula income capital k, ?_⟩
  intro j hj
  rw [step_universals_formula, step_universals_formula]
  have hc : 0 ≤ (0.5 : ℚ) * max 0 (0.25 * income - capital) := by
    have := le_max_left (0 : ℚ) (0.25 * income - capital)
    nlinarith
  have hjk : (j : ℚ) ≤ (k : ℚ) := by exact_mod_cast hj
  nlinarith

/-- Witness for C10 at income 4000, capital 500, after 3 steps (and the
monotonicity hypothesis discharged at `j = 2 ≤ 3`). -/
theorem town_universals_linear_witness :
    (PersonAgent.step^[3] (PersonAgent.init 4000 500)).universals
        = (3 : ℚ) * (0.5 * max 0 (0.25 * 4000 - 500))
      ∧ (PersonAgent.step^[2] (PersonAgent.init 4000 500)).universals
        ≤ (PersonAgent.step^[3] (PersonAgent.init 4000 500)).universals :=
  ⟨(town_universals_linear 4000 500 3).2.2.1,
    (town_universals_linear 4000 500 3).2.2.2 2 (by norm_num)⟩

end Town
